import Mathlib

/-!
Shallow embedding of `solution/round_1a.py` (class `DocumentAnalyzer`), the
heading/outline extraction pipeline, together with proofs checking the
natural-language specification against it.

Modelling conventions:
* Python `float` font sizes and coordinates are modelled as exact rationals
  (`ℚ`).  Rational arithmetic is written with `mkRat` on numerators and
  denominators (`qmul10over11`-style helpers) because the claims only need the
  exact values; binary-float rounding artifacts are outside the model.
* Python strings are modelled as `String`, with the Python string operations
  (`strip`, `lower`, `split`, `isupper`, `startswith`, `in`) defined
  structurally over `String.data` so that they evaluate inside the kernel.
  "Cased" characters are modelled as ASCII letters.
* `list.sort` / `sorted` (Timsort) are stable sorts; for a total transitive
  comparison the stable sorted permutation is unique, so they are modelled by
  `List.insertionSort`, which inserts earlier elements before later
  equal-ranked ones and is therefore stable in the same sense.
* Python dicts keyed by tuples are modelled as association lists built in
  insertion order; `collections.Counter.most_common(1)` returns the
  first-encountered key among those of maximal count, modelled accordingly.
-/

/-! ### Python string primitives (ASCII model), over `List Char` -/

/-- The default whitespace characters of Python `str.strip` / `str.split`. -/
def isPySpace (c : Char) : Bool :=
  c == ' ' || c == '\t' || c == '\n' || c == '\r' || c == '\x0b' || c == '\x0c'

/-- Python `str.strip()` on the character list: drop leading and trailing
whitespace. -/
def stripL (cs : List Char) : List Char :=
  ((cs.dropWhile isPySpace).reverse.dropWhile isPySpace).reverse

/-- Python `str.strip()`. -/
def pyStrip (s : String) : String := ⟨stripL s.data⟩

/-- Python `str.lower()` (ASCII model). -/
def pyLower (s : String) : String := ⟨s.data.map Char.toLower⟩

/-- `len(text.split())`: number of maximal whitespace-free runs. -/
def countWords (cs : List Char) : Nat :=
  (cs.foldl
    (fun st c =>
      if isPySpace c then (st.1, false)
      else if st.2 then st else (st.1 + 1, true))
    ((0 : Nat), false)).1

/-- Python `str.isupper()` (ASCII model of "cased" = letter): at least one
letter and no lowercase letter. -/
def pyIsUpper (cs : List Char) : Bool :=
  cs.any Char.isAlpha && cs.all (fun c => !c.isLower)

/-- `re.search(r'\d', text)` (ASCII model): some decimal digit occurs. -/
def hasDigitL (cs : List Char) : Bool := cs.any Char.isDigit

/-- Python `hay.startswith(needle)` on character lists. -/
def startsWithL : List Char → List Char → Bool
  | _, [] => true
  | [], _ :: _ => false
  | c :: cs, p :: ps => c == p && startsWithL cs ps

/-- Python `needle in hay` (substring occurrence) on character lists. -/
def containsL : List Char → List Char → Bool
  | [], needle => needle.isEmpty
  | hay@(_ :: cs), needle => startsWithL hay needle || containsL cs needle

/-! ### Exact rational helpers (kernel-evaluable replacements for the
`@[irreducible]` `Rat` field operations) -/

/-- `round(q, 1)` of Python, as an exact rational: the nearest multiple of
1/10 (ties rounded half-up; Python's float round-half-even can differ at exact
midpoints, which no claim depends on).  Sizes are nonnegative in the model. -/
def round1 (q : ℚ) : ℚ := mkRat ((20 * q.num + q.den) / (2 * (q.den : ℤ))) 10

/-- `a - b` on coordinates, written with `mkRat` so it evaluates in the
kernel. -/
def qsub (a b : ℚ) : ℚ := mkRat (a.num * (b.den : ℤ) - b.num * (a.den : ℤ)) (a.den * b.den)

/-- `fs >= body * 1.1`, with `body * 1.1` as the exact rational `11*body/10`. -/
def sigLargerB (fs body : ℚ) : Bool := decide (mkRat (11 * body.num) (10 * body.den) ≤ fs)

/-! ### Data model: the PyMuPDF `page.get_text("dict")` shape consumed by
`_extract_text_elements`, and the element dict it produces -/

/-- One span of `line["spans"]`: text, font size, font name, style flags. -/
structure Span where
  text : String
  size : ℚ
  font : String
  flags : Nat
deriving DecidableEq, Repr

/-- One line of `block["lines"]`: bounding box `(x0, y0, x1, y1)` and spans. -/
structure TextLine where
  x0 : ℚ
  y0 : ℚ
  x1 : ℚ
  y1 : ℚ
  spans : List Span
deriving DecidableEq, Repr

/-- One block of `page.get_text("dict")["blocks"]`; `btype` is `block["type"]`
(0 = text block). -/
structure TextBlock where
  btype : Nat
  lines : List TextLine
deriving DecidableEq, Repr

/-- One page: its text blocks. -/
structure PDFPage where
  blocks : List TextBlock
deriving DecidableEq, Repr

/-- A successfully opened document: its pages in order. -/
abbrev PDFDoc := List PDFPage

/-- The element dict built at `round_1a.py` lines 74-88.  `is_bold` and
`is_italic` keep the Python *value* semantics of
`"bold" in font.lower() or flags & 2**4`: Python `or` returns `True` (which
compares equal to `1`) from the first disjunct, else the integer `flags & 16`;
we encode `True` as `1`, so the possible values are `1`, `16`/`2` and `0`, with
tuple equality = numeric equality and truthiness = `≠ 0`, exactly as in
Python.  `heading_score` models the key added by
`_identify_heading_candidates`; before that the dict has no such key, encoded
as the default `0`. -/
structure Element where
  text : String
  font_size : ℚ
  font_name : String
  is_bold : Nat
  is_italic : Nat
  page : Nat
  y_pos : ℚ
  x_pos : ℚ
  word_count : Nat
  char_count : Nat
  is_all_caps : Bool
  has_numbers : Bool
  line_height : ℚ
  heading_score : Nat := 0
deriving DecidableEq, Repr

/-- `"bold" in span["font"].lower() or span.get("flags", 0) & 2**4`
(value encoding: `True ↦ 1`). -/
def pyBold (font : String) (flags : Nat) : Nat :=
  if containsL (font.data.map Char.toLower) "bold".data then 1 else flags &&& 16

/-- `"italic" in span["font"].lower() or span.get("flags", 0) & 2**1`. -/
def pyItalic (font : String) (flags : Nat) : Nat :=
  if containsL (font.data.map Char.toLower) "italic".data then 1 else flags &&& 2

/-- The element built from one span of one line (lines 64-88): skipped (`none`)
when the stripped text is empty. -/
def elementOfSpan (page_num : Nat) (line : TextLine) (span : Span) : Option Element :=
  let text := pyStrip span.text
  if text = "" then none
  else some
    { text := text
      font_size := round1 span.size
      font_name := span.font
      is_bold := pyBold span.font span.flags
      is_italic := pyItalic span.font span.flags
      page := page_num + 1
      y_pos := line.y0
      x_pos := line.x0
      word_count := countWords text.data
      char_count := text.length
      is_all_caps := pyIsUpper text.data
      has_numbers := hasDigitL text.data
      line_height := qsub line.y1 line.y0 }

/-- `DocumentAnalyzer._extract_text_elements` (lines 50-92): all pages, text
blocks only, all lines, all spans, in document order. -/
def extract_text_elements (doc : PDFDoc) : List Element :=
  doc.enum.flatMap (fun p =>
    p.2.blocks.flatMap (fun block =>
      if block.btype = 0 then
        block.lines.flatMap (fun line =>
          line.spans.filterMap (fun span => elementOfSpan p.1 line span))
      else []))

/-! ### Title extraction (`_extract_title`, lines 94-132) -/

/-- The sort order of line 106: `key=lambda x: (x["font_size"], -x["y_pos"]),
reverse=True` — font size descending, and among equal sizes the smaller
`y_pos` (topmost) first.  `titleR a b` holds when `a` may come before `b`. -/
def titleR (a b : Element) : Prop :=
  b.font_size < a.font_size ∨ (a.font_size = b.font_size ∧ a.y_pos ≤ b.y_pos)

instance : DecidableRel titleR := fun a b =>
  inferInstanceAs (Decidable (_ ∨ _ ∧ _))

instance : IsTotal Element titleR := by
  constructor
  intro a b
  rcases lt_trichotomy a.font_size b.font_size with h | h | h
  · exact Or.inr (Or.inl h)
  · rcases le_total a.y_pos b.y_pos with h2 | h2
    · exact Or.inl (Or.inr ⟨h, h2⟩)
    · exact Or.inr (Or.inr ⟨h.symm, h2⟩)
  · exact Or.inl (Or.inl h)

instance : IsTrans Element titleR := by
  constructor
  intro a b c hab hbc
  rcases hab with h | ⟨he, hy⟩
  · rcases hbc with h2 | ⟨he2, _⟩
    · exact Or.inl (h2.trans h)
    · exact Or.inl (he2 ▸ h)
  · rcases hbc with h2 | ⟨he2, hy2⟩
    · exact Or.inl (he ▸ h2)
    · exact Or.inr ⟨he.trans he2, hy.trans hy2⟩

/-- The title heuristic of lines 114-122 (`is_good_title`). -/
def is_good_title (e : Element) : Bool :=
  decide (12 ≤ e.font_size) &&
  decide (e.word_count ≤ 15) &&
  decide (1 ≤ e.word_count) &&
  !e.has_numbers &&
  !(startsWithL e.text.data "Page".data) &&
  !(startsWithL e.text.data "Chapter".data) &&
  decide (2 < e.text.length)

/-- `DocumentAnalyzer._extract_title` (lines 94-132). -/
def extract_title (elements : List Element) : String :=
  if elements.isEmpty then "Untitled Document"
  else
    let first_page_elements := elements.filter (fun e => e.page = 1)
    if first_page_elements.isEmpty then "Untitled Document"
    else
      let sorted := List.insertionSort titleR first_page_elements
      let title_candidates := (sorted.take 10).filter is_good_title
      match title_candidates with
      | c :: _ => c.text
      | [] =>
        match sorted with
        | e :: _ => e.text
        | [] => "Untitled Document"

/-! ### Body-text baseline (`_analyze_body_text`, lines 153-176) -/

/-- Distinct values in order of first occurrence: the key order of a Python
`Counter` / `dict` / `defaultdict` built by one left-to-right pass. -/
def firstOccs {α : Type} [DecidableEq α] (l : List α) : List α :=
  l.foldl (fun acc x => if x ∈ acc then acc else acc ++ [x]) []

/-- `Counter(font_sizes).most_common(1)[0][0]`: a value of maximal
multiplicity; among equally frequent values the first encountered wins
(CPython `Counter` keeps insertion order and `max`/`nlargest(1)` return the
first maximal element).  Python raises `IndexError` on an empty counter; the
only caller (`_extract_headings`, line 136) guarantees a nonempty list, and
the model returns `0` there. -/
def mostCommonSize (sizes : List ℚ) : ℚ :=
  match firstOccs sizes with
  | [] => 0
  | d :: ds => ds.foldl (fun best s => if sizes.count best < sizes.count s then s else best) d

/-- The dict returned by `_analyze_body_text` (lines 170-176). -/
structure BodyStats where
  size : ℚ
  frequency : Nat
  avg_word_count : ℚ
  avg_char_count : ℚ
  total_elements : Nat

/-- `DocumentAnalyzer._analyze_body_text` (lines 153-176). -/
def analyze_body_text (elements : List Element) : BodyStats :=
  let font_sizes := elements.map (fun e => e.font_size)
  let body_size := mostCommonSize font_sizes
  let body_elements := elements.filter (fun e => e.font_size = body_size)
  { size := body_size
    frequency := font_sizes.count body_size
    avg_word_count :=
      if body_elements.isEmpty then 0
      else ((body_elements.map (fun e => e.word_count)).sum : ℚ) / (body_elements.length : ℚ)
    avg_char_count :=
      if body_elements.isEmpty then 0
      else ((body_elements.map (fun e => e.char_count)).sum : ℚ) / (body_elements.length : ℚ)
    total_elements := elements.length }

/-! ### Heading candidates (`_identify_heading_candidates`, lines 178-217) -/

/-- The additive score of lines 197-210:
`2·[fontSize > body] + 3·[fontSize ≥ body*1.1] + 2·[isBold] + 1·[isAllCaps] +
1·[3 ≤ wordCount ≤ 20] + 1·[no digit]`. -/
def headingScore (body_size : ℚ) (e : Element) : Nat :=
  (if body_size < e.font_size then 2 else 0) +
  (if sigLargerB e.font_size body_size then 3 else 0) +
  (if e.is_bold ≠ 0 then 2 else 0) +
  (if e.is_all_caps then 1 else 0) +
  (if 3 ≤ e.word_count ∧ e.word_count ≤ 20 then 1 else 0) +
  (if e.has_numbers then 0 else 1)

/-- `DocumentAnalyzer._identify_heading_candidates` (lines 178-217): skip
texts shorter than 3 characters, keep a run iff `score >= 3 and
is_larger_than_body`, annotating the kept run with its score. -/
def identify_heading_candidates (elements : List Element) (body_stats : BodyStats) :
    List Element :=
  let body_size := body_stats.size
  elements.filterMap (fun e =>
    if e.text.length < 3 then none
    else
      let score := headingScore body_size e
      if 3 ≤ score ∧ body_size < e.font_size then
        some { e with heading_score := score }
      else none)

/-! ### Level classification (`_classify_heading_levels`, lines 219-261) -/

/-- The style key of lines 228-232 / 247-251: `(font_size, is_bold,
is_all_caps)`, with `is_bold` carrying the raw Python value (see `Element`). -/
def styleKey (e : Element) : ℚ × Nat × Bool := (e.font_size, e.is_bold, e.is_all_caps)

/-- Line 236: `sorted(style_groups.keys(), key=lambda x: x[0], reverse=True)` —
descending by font size only. -/
def styleR (a b : ℚ × Nat × Bool) : Prop := b.1 ≤ a.1

instance : DecidableRel styleR := fun a b => inferInstanceAs (Decidable (_ ≤ _))

instance : IsTotal (ℚ × Nat × Bool) styleR := ⟨fun a b => le_total b.1 a.1⟩

instance : IsTrans (ℚ × Nat × Bool) styleR := ⟨fun _ _ _ h h2 => le_trans h2 h⟩

/-- One outline entry as built at lines 254-258: only `level`, `text`, `page`
(no position). -/
structure Heading where
  level : String
  text : String
  page : Nat
deriving DecidableEq, Repr

/-- `DocumentAnalyzer._classify_heading_levels` (lines 219-261): group the
candidates by style key (`defaultdict` in first-occurrence order), sort the
distinct keys descending by font size (stable), map the first three to
`"H1"`, `"H2"`, `"H3"`, and emit, in candidate order, an entry for every
candidate whose key is mapped. -/
def classify_heading_levels (candidates : List Element) : List Heading :=
  if candidates.isEmpty then []
  else
    let style_keys := firstOccs (candidates.map styleKey)
    let sorted_styles := List.insertionSort styleR style_keys
    let level_mapping :=
      (sorted_styles.take 3).enum.map (fun p => (p.2, "H" ++ toString (p.1 + 1)))
    candidates.filterMap (fun c =>
      (level_mapping.find? (fun p => p.1 = styleKey c)).map
        (fun p => { level := p.2, text := c.text, page := c.page }))

/-! ### Outline finalisation (`_create_final_outline`, lines 263-283) -/

/-- `x.get("y_pos", 0)` of line 269: the classified headings are built with
only `level`/`text`/`page` (lines 254-258), so the key's second component is
always the default `0`. -/
def headingGetYPos (_h : Heading) : ℚ := 0

/-- The sort order of line 269: ascending by the key
`(x["page"], x.get("y_pos", 0))`. -/
def finalR (a b : Heading) : Prop :=
  a.page < b.page ∨ (a.page = b.page ∧ headingGetYPos a ≤ headingGetYPos b)

instance : DecidableRel finalR := fun a b =>
  inferInstanceAs (Decidable (_ ∨ _ ∧ _))

instance : IsTotal Heading finalR := by
  constructor
  intro a b
  rcases lt_trichotomy a.page b.page with h | h | h
  · exact Or.inl (Or.inl h)
  · exact Or.inl (Or.inr ⟨h, le_refl _⟩)
  · exact Or.inr (Or.inl h)

instance : IsTrans Heading finalR := by
  constructor
  intro a b c hab hbc
  rcases hab with h | ⟨he, _⟩
  · rcases hbc with h2 | ⟨he2, _⟩
    · exact Or.inl (h.trans h2)
    · exact Or.inl (he2 ▸ h)
  · rcases hbc with h2 | ⟨he2, hy2⟩
    · exact Or.inl (he ▸ h2)
    · exact Or.inr ⟨he.trans he2, hy2⟩

/-- `heading["text"].strip().lower()` (line 277). -/
def normText (h : Heading) : String := pyLower (pyStrip h.text)

/-- `DocumentAnalyzer._create_final_outline` (lines 263-283): stable-sort by
`(page, get("y_pos", 0))`, then keep a heading iff its normalized text was not
seen before and has length > 2, recording kept texts as seen. -/
def create_final_outline (classified_headings : List Heading) : List Heading :=
  if classified_headings.isEmpty then []
  else
    let sorted := List.insertionSort finalR classified_headings
    (sorted.foldl
      (fun (st : List Heading × List String) heading =>
        let normalized_text := normText heading
        if normalized_text ∉ st.2 ∧ 2 < normalized_text.length then
          (st.1 ++ [heading], st.2 ++ [normalized_text])
        else st)
      ([], [])).1

/-! ### Pipeline and entry point (`_extract_headings` / `extract_outline`) -/

/-- `DocumentAnalyzer._extract_headings` (lines 134-151). -/
def extract_headings (elements : List Element) : List Heading :=
  if elements.isEmpty then []
  else
    let body_stats := analyze_body_text elements
    let heading_candidates := identify_heading_candidates elements body_stats
    let classified_headings := classify_heading_levels heading_candidates
    create_final_outline classified_headings

/-- The `{"title": ..., "outline": ...}` dict returned by `extract_outline`. -/
structure OutlineResult where
  title : String
  outline : List Heading
deriving DecidableEq, Repr

/-- Lines 33-48 of `extract_outline`, after `fitz.open` succeeded.  The
`Bool` records whether `doc.close()` (line 43) ran before the return: the
early return at lines 36-37 (no text elements) skips it. -/
def extract_outline_opened (doc : PDFDoc) : OutlineResult × Bool :=
  let text_elements := extract_text_elements doc
  if text_elements.isEmpty then ({ title := "Untitled Document", outline := [] }, false)
  else
    ({ title := extract_title text_elements
       outline := extract_headings text_elements }, true)

/-- `DocumentAnalyzer.extract_outline` (lines 17-48).  `none` models
`fitz.open` raising (caught at lines 29-31). -/
def extract_outline (parsed : Option PDFDoc) : OutlineResult :=
  match parsed with
  | none => { title := "Untitled Document", outline := [] }
  | some doc => (extract_outline_opened doc).1

/-- The text elements available to the pipeline for a parse result: none on
open failure. -/
def elementsOf : Option PDFDoc → List Element
  | none => []
  | some doc => extract_text_elements doc

/-! ### Specification-side definitions (for refinement statements) -/

/-- The ranked distinct style signatures of a candidate list: collect the
distinct `(fontSize, isBold, isAllCaps)` signatures, sort descending by
`fontSize` only (stable).  This is the `sorted_styles` value inside
`classify_heading_levels`, exposed for the statements. -/
def rankedStyles (candidates : List Element) : List (ℚ × Nat × Bool) :=
  List.insertionSort styleR (firstOccs (candidates.map styleKey))

/-- Spec 4.3 steps 2-3, stated from the spec's words: the first, second and
third ranked signatures receive `H1`, `H2`, `H3`; any signature ranked beyond
the third receives no level. -/
def levelForRankSpec (ranked : List (ℚ × Nat × Bool)) (s : ℚ × Nat × Bool) : Option String :=
  match (ranked.take 3).findIdx? (fun t => t = s) with
  | some 0 => some "H1"
  | some 1 => some "H2"
  | some 2 => some "H3"
  | _ => none

/-- Spec 4.4, stated from the spec's words: keep only the first occurrence of
each key. -/
def keepFirstBy (k : Heading → String) : List Heading → List Heading
  | [] => []
  | h :: t => h :: keepFirstBy k (t.filter (fun h2 => k h2 ≠ k h))
termination_by l => l.length
decreasing_by exact Nat.lt_succ_of_le (List.length_filter_le _ t)

/-! ### Concrete inputs used by the counterexample/witness theorems -/

/-- A body-text run (font size 10) at a given page and height. -/
def bodyRun (pg : Nat) (y : ℚ) (s : String) : Element :=
  { text := s, font_size := 10, font_name := "Times-Roman", is_bold := 0,
    is_italic := 0, page := pg, y_pos := y, x_pos := 0, word_count := 4,
    char_count := s.length, is_all_caps := false, has_numbers := false,
    line_height := 12 }

/-- Page-1 run `"Grand Title Heading"`, size 30, bold. -/
def exTitleRun : Element :=
  { text := "Grand Title Heading", font_size := 30, font_name := "Helvetica-Bold",
    is_bold := 1, is_italic := 0, page := 1, y_pos := 40, x_pos := 0,
    word_count := 3, char_count := 19, is_all_caps := false, has_numbers := false,
    line_height := 34 }

/-- Page-1 run `"Section One"`, size 20, bold. -/
def exH2Run : Element :=
  { text := "Section One", font_size := 20, font_name := "Helvetica-Bold",
    is_bold := 1, is_italic := 0, page := 1, y_pos := 100, x_pos := 0,
    word_count := 2, char_count := 11, is_all_caps := false, has_numbers := false,
    line_height := 24 }

/-- Page-1 run `"SECTION DETAILS"`, size 16, all caps. -/
def exH3Run : Element :=
  { text := "SECTION DETAILS", font_size := 16, font_name := "Helvetica",
    is_bold := 0, is_italic := 0, page := 1, y_pos := 200, x_pos := 0,
    word_count := 2, char_count := 15, is_all_caps := true, has_numbers := false,
    line_height := 20 }

/-- Page-2 run `"Closing Notes"`, size 20, bold (same style as `exH2Run`). -/
def exH4Run : Element :=
  { text := "Closing Notes", font_size := 20, font_name := "Helvetica-Bold",
    is_bold := 1, is_italic := 0, page := 2, y_pos := 50, x_pos := 0,
    word_count := 2, char_count := 13, is_all_caps := false, has_numbers := false,
    line_height := 24 }

/-- A small document's element list: one title-sized run, three heading runs
over two pages, and body text dominating at size 10. -/
def exDocElems : List Element :=
  [exTitleRun, exH2Run, exH3Run,
   bodyRun 1 300 "some plain body text", bodyRun 1 320 "more plain body text",
   bodyRun 2 100 "other plain body text", bodyRun 2 120 "final plain body text",
   exH4Run]

/-- The heading candidates of `exDocElems` (input of the level classifier). -/
def exCands : List Element :=
  identify_heading_candidates exDocElems (analyze_body_text exDocElems)

/-- For C3: a size-20 bold run low on page 1 (`y = 500`), listed *before*
`exUpperRun` in extraction order. -/
def exLowerRun : Element :=
  { text := "Lower On The Page", font_size := 20, font_name := "Helvetica-Bold",
    is_bold := 1, is_italic := 0, page := 1, y_pos := 500, x_pos := 0,
    word_count := 4, char_count := 17, is_all_caps := false, has_numbers := false,
    line_height := 24 }

/-- For C3: a size-20 bold run high on page 1 (`y = 100`). -/
def exUpperRun : Element :=
  { text := "Upper On The Page", font_size := 20, font_name := "Helvetica-Bold",
    is_bold := 1, is_italic := 0, page := 1, y_pos := 100, x_pos := 0,
    word_count := 4, char_count := 17, is_all_caps := false, has_numbers := false,
    line_height := 24 }

/-- For C3: the low-on-page run precedes the high-on-page run in extraction
order; body text at size 10 dominates. -/
def exC3Elems : List Element :=
  [exLowerRun, exUpperRun,
   bodyRun 1 600 "some plain body text", bodyRun 1 620 "more plain body text",
   bodyRun 1 640 "other plain body text"]

/-- A document that opens fine but yields zero text elements: its only span
is whitespace, discarded by `elementOfSpan`. -/
def exEmptyDoc : PDFDoc :=
  [{ blocks := [{ btype := 0,
                  lines := [{ x0 := 0, y0 := 0, x1 := 10, y1 := 10,
                              spans := [{ text := "   ", size := 10,
                                          font := "Times-Roman", flags := 0 }] }] }] }]

/-- For C9: a page whose two same-size heading spans are bold in two different
ways — `"Alpha Section"` by font name (`Arial-Bold`, flags 0) and
`"Beta Section"` by the font-flag bit (`Arial`, flags 16) — plus dominant
body text at size 10. -/
def exC9Doc : PDFDoc :=
  [{ blocks := [{ btype := 0,
                  lines :=
                    [{ x0 := 0, y0 := 40, x1 := 100, y1 := 60,
                       spans := [{ text := "Alpha Section", size := 20,
                                   font := "Arial-Bold", flags := 0 }] },
                     { x0 := 0, y0 := 80, x1 := 100, y1 := 100,
                       spans := [{ text := "Beta Section", size := 20,
                                   font := "Arial", flags := 16 }] },
                     { x0 := 0, y0 := 120, x1 := 100, y1 := 130,
                       spans := [{ text := "body text runs here", size := 10,
                                   font := "Arial", flags := 0 },
                                 { text := "more body text here", size := 10,
                                   font := "Arial", flags := 0 },
                                 { text := "final body text here", size := 10,
                                   font := "Arial", flags := 0 }] }] }] }]

/-- The element extracted from the `"Alpha Section"` span of `exC9Doc`. -/
def exC9A : Element :=
  { text := "Alpha Section", font_size := 20, font_name := "Arial-Bold",
    is_bold := 1, is_italic := 0, page := 1, y_pos := 40, x_pos := 0,
    word_count := 2, char_count := 13, is_all_caps := false, has_numbers := false,
    line_height := 20 }

/-- The element extracted from the `"Beta Section"` span of `exC9Doc`. -/
def exC9B : Element :=
  { text := "Beta Section", font_size := 20, font_name := "Arial",
    is_bold := 16, is_italic := 0, page := 1, y_pos := 80, x_pos := 0,
    word_count := 2, char_count := 12, is_all_caps := false, has_numbers := false,
    line_height := 20 }

/-! ## Helper lemmas -/

theorem mem_foldl_firstOccs {α : Type} [DecidableEq α] :
    ∀ (l acc : List α) (x : α),
      (x ∈ l.foldl (fun acc x => if x ∈ acc then acc else acc ++ [x]) acc) ↔ x ∈ acc ∨ x ∈ l
  | [], acc, x => by simp
  | a :: l, acc, x => by
    simp only [List.foldl_cons]
    by_cases h : a ∈ acc
    · rw [if_pos h, mem_foldl_firstOccs l acc x]
      simp only [List.mem_cons]
      constructor
      · rintro (hx | hx)
        · exact Or.inl hx
        · exact Or.inr (Or.inr hx)
      · rintro (hx | rfl | hx)
        · exact Or.inl hx
        · exact Or.inl h
        · exact Or.inr hx
    · rw [if_neg h, mem_foldl_firstOccs l (acc ++ [a]) x]
      simp only [List.mem_append, List.mem_singleton, List.mem_cons]
      tauto

theorem firstOccs_mem {α : Type} [DecidableEq α] (l : List α) (x : α) :
    x ∈ firstOccs l ↔ x ∈ l := by
  simpa [firstOccs] using mem_foldl_firstOccs l [] x

theorem nodup_foldl_firstOccs {α : Type} [DecidableEq α] :
    ∀ (l acc : List α), acc.Nodup →
      (l.foldl (fun acc x => if x ∈ acc then acc else acc ++ [x]) acc).Nodup
  | [], _, h => h
  | a :: l, acc, h => by
    simp only [List.foldl_cons]
    by_cases ha : a ∈ acc
    · rw [if_pos ha]
      exact nodup_foldl_firstOccs l acc h
    · rw [if_neg ha]
      exact nodup_foldl_firstOccs l _ (by simp [List.nodup_append, h, ha])

theorem firstOccs_nodup {α : Type} [DecidableEq α] (l : List α) : (firstOccs l).Nodup :=
  nodup_foldl_firstOccs l [] List.nodup_nil

theorem foldl_best_mem (g : ℚ → Nat) :
    ∀ (ds : List ℚ) (d : ℚ),
      ds.foldl (fun best s => if g best < g s then s else best) d ∈ d :: ds
  | [], d => List.mem_singleton_self d
  | s :: ds, d => by
    simp only [List.foldl_cons]
    by_cases hc : g d < g s
    · rw [if_pos hc]
      exact List.mem_cons_of_mem d (foldl_best_mem g ds s)
    · rw [if_neg hc]
      rcases List.mem_cons.mp (foldl_best_mem g ds d) with he | hm
      · rw [he]
        exact List.mem_cons_self _ _
      · exact List.mem_cons_of_mem _ (List.mem_cons_of_mem _ hm)

theorem foldl_best_le (g : ℚ → Nat) :
    ∀ (ds : List ℚ) (d : ℚ) (x : ℚ), x ∈ d :: ds →
      g x ≤ g (ds.foldl (fun best s => if g best < g s then s else best) d)
  | [], d, x, hx => by
    rcases List.mem_cons.mp hx with rfl | h
    · exact Nat.le_refl _
    · cases h
  | s :: ds, d, x, hx => by
    simp only [List.foldl_cons]
    by_cases hc : g d < g s
    · rw [if_pos hc]
      rcases List.mem_cons.mp hx with rfl | hx'
      · exact le_trans (Nat.le_of_lt hc) (foldl_best_le g ds s s (List.mem_cons_self s ds))
      · exact foldl_best_le g ds s x hx'
    · rw [if_neg hc]
      rcases List.mem_cons.mp hx with rfl | hx'
      · exact foldl_best_le g ds x x (List.mem_cons_self _ _)
      · rcases List.mem_cons.mp hx' with rfl | hx''
        · exact le_trans (Nat.le_of_not_lt hc) (foldl_best_le g ds d d (List.mem_cons_self _ _))
        · exact foldl_best_le g ds d x (List.mem_cons_of_mem _ hx'')

theorem mostCommonSize_spec (sizes : List ℚ) (h : sizes ≠ []) :
    mostCommonSize sizes ∈ sizes ∧
      ∀ x ∈ sizes, sizes.count x ≤ sizes.count (mostCommonSize sizes) := by
  unfold mostCommonSize
  cases hf : firstOccs sizes with
  | nil =>
    obtain ⟨s, hs⟩ := List.exists_mem_of_ne_nil sizes h
    have hmem := (firstOccs_mem sizes s).mpr hs
    rw [hf] at hmem
    cases hmem
  | cons d ds =>
    constructor
    · have hm := foldl_best_mem (fun q => sizes.count q) ds d
      have : List.foldl (fun best s => if sizes.count best < sizes.count s then s else best)
          d ds ∈ firstOccs sizes := by rw [hf]; exact hm
      exact (firstOccs_mem sizes _).mp this
    · intro x hx
      have hx' : x ∈ d :: ds := by
        rw [← hf]
        exact (firstOccs_mem sizes x).mpr hx
      exact foldl_best_le (fun q => sizes.count q) ds d x hx'

theorem find?_some_filter_cons (p : α → Bool) :
    ∀ (l : List α) (a : α), l.find? p = some a → ∃ t, l.filter p = a :: t
  | [], a, h => by simp [List.find?] at h
  | b :: l, a, h => by
    by_cases hb : p b
    · rw [List.find?_cons_of_pos _ hb] at h
      injection h with h
      subst h
      exact ⟨l.filter p, by rw [List.filter_cons_of_pos hb]⟩
    · rw [List.find?_cons_of_neg _ (by simpa using hb)] at h
      obtain ⟨t, ht⟩ := find?_some_filter_cons p l a h
      exact ⟨t, by rw [List.filter_cons_of_neg (by simpa using hb), ht]⟩

theorem filter_eq_nil_of_find?_none (p : α → Bool) (l : List α) (h : l.find? p = none) :
    l.filter p = [] := by
  rw [List.filter_eq_nil_iff]
  intro a ha
  exact fun hpa => (by simpa [hpa] using List.find?_eq_none.mp h a ha)

theorem dropWhile_self (p : α → Bool) : ∀ l : List α, (l.dropWhile p).dropWhile p = l.dropWhile p
  | [] => rfl
  | a :: l => by
    by_cases h : p a
    · rw [List.dropWhile_cons_of_pos h]
      exact dropWhile_self p l
    · rw [List.dropWhile_cons_of_neg (by simpa using h),
        List.dropWhile_cons_of_neg (by simpa using h)]

theorem dropWhile_head_not (p : α → Bool) :
    ∀ (l : List α) (a : α) (t : List α), l.dropWhile p = a :: t → p a = false
  | [], a, t, h => by simp [List.dropWhile] at h
  | b :: l, a, t, h => by
    by_cases hb : p b
    · rw [List.dropWhile_cons_of_pos hb] at h
      exact dropWhile_head_not p l a t h
    · rw [List.dropWhile_cons_of_neg (by simpa using hb)] at h
      injection h with h1 _
      subst h1
      simpa using hb

theorem stripL_idem (cs : List Char) : stripL (stripL cs) = stripL cs := by
  have hdw : ∀ (l : List Char) (a : Char) (t : List Char),
      l.dropWhile isPySpace = a :: t → isPySpace a = false :=
    fun l a t h => dropWhile_head_not isPySpace l a t h
  unfold stripL
  set u := cs.dropWhile isPySpace with hu
  set w := u.reverse.dropWhile isPySpace with hw
  have h1 : w.reverse.dropWhile isPySpace = w.reverse := by
    cases hwr : w.reverse with
    | nil => simp
    | cons a t =>
      have hsuf : w <:+ u.reverse := by
        rw [hw]
        exact List.dropWhile_suffix _
      have hpre : w.reverse <+: u := by
        have h2 := List.reverse_prefix.mpr hsuf
        simpa using h2
      obtain ⟨z, hz⟩ := hpre
      have hu2 : u = a :: (t ++ z) := by
        rw [← hz, hwr]
        simp
      have ha : isPySpace a = false := by
        refine hdw cs a (t ++ z) ?_
        rw [← hu, hu2]
      exact List.dropWhile_cons_of_neg (by simp [ha])
  rw [h1, List.reverse_reverse, hw, dropWhile_self]

theorem pyStrip_idem (s : String) : pyStrip (pyStrip s) = pyStrip s := by
  show String.mk (stripL (String.mk (stripL s.data)).data) = String.mk (stripL s.data)
  rw [show (String.mk (stripL s.data)).data = stripL s.data from rfl, stripL_idem]

theorem identify_eq_filter_map (body_stats : BodyStats) :
    ∀ elements : List Element,
      identify_heading_candidates elements body_stats =
        (elements.filter (fun e =>
            decide (¬(e.text.length < 3) ∧
              3 ≤ headingScore body_stats.size e ∧ body_stats.size < e.font_size))).map
          (fun e => { e with heading_score := headingScore body_stats.size e })
  | [] => rfl
  | a :: l => by
    have ih := identify_eq_filter_map body_stats l
    simp only [identify_heading_candidates] at ih ⊢
    simp only [List.filterMap_cons, List.filter_cons]
    by_cases h1 : a.text.length < 3
    · simp [h1, ih]
    · by_cases h2 : 3 ≤ headingScore body_stats.size a ∧ body_stats.size < a.font_size
      · simp [h1, h2.1, h2.2, ih]
      · rw [Decidable.not_and_iff_or_not] at h2
        rcases h2 with h2 | h2 <;> simp [h1, h2, ih]

/-- **C1.** For every run list and body size, a run is kept as a heading
candidate iff its trimmed text has length ≥ 3, its score is ≥ 3, and its font
size strictly exceeds the body size, where the score is `headingScore`
(2·[larger] + 3·[significantly larger] + 2·[bold] + 1·[all caps] +
1·[3 ≤ wordCount ≤ 20] + 1·[no digit]); in particular every candidate's font
size strictly exceeds the body size, so a run at or below body size is never a
candidate. -/
theorem C1_candidate_gate (elements : List Element) (body_stats : BodyStats)
    (htrim : ∀ e ∈ elements, pyStrip e.text = e.text) :
    identify_heading_candidates elements body_stats =
      (elements.filter (fun e =>
          decide (3 ≤ (pyStrip e.text).length ∧
            3 ≤ headingScore body_stats.size e ∧ body_stats.size < e.font_size))).map
        (fun e => { e with heading_score := headingScore body_stats.size e }) ∧
    ∀ e ∈ identify_heading_candidates elements body_stats,
      body_stats.size < e.font_size := by
  have h1 : identify_heading_candidates elements body_stats =
      (elements.filter (fun e =>
          decide (3 ≤ (pyStrip e.text).length ∧
            3 ≤ headingScore body_stats.size e ∧ body_stats.size < e.font_size))).map
        (fun e => { e with heading_score := headingScore body_stats.size e }) := by
    rw [identify_eq_filter_map body_stats elements]
    congr 1
    refine List.filter_congr (fun e he => ?_)
    rw [decide_eq_decide, htrim e he, Nat.not_lt]
  refine ⟨h1, fun e he => ?_⟩
  rw [h1] at he
  simp only [List.mem_map, List.mem_filter, decide_eq_true_eq] at he
  obtain ⟨e0, ⟨_, _, _, hgate⟩, rfl⟩ := he
  exact hgate

/-- Witness for C1 at a concrete document's runs. -/
theorem C1_candidate_gate_witness :
    identify_heading_candidates exDocElems (analyze_body_text exDocElems) =
      (exDocElems.filter (fun e =>
          decide (3 ≤ (pyStrip e.text).length ∧
            3 ≤ headingScore (analyze_body_text exDocElems).size e ∧
            (analyze_body_text exDocElems).size < e.font_size))).map
        (fun e =>
          { e with heading_score := headingScore (analyze_body_text exDocElems).size e }) ∧
    ∀ e ∈ identify_heading_candidates exDocElems (analyze_body_text exDocElems),
      (analyze_body_text exDocElems).size < e.font_size :=
  C1_candidate_gate exDocElems (analyze_body_text exDocElems) (by decide)

/-- **C5.** On open failure and on a document with zero extracted text runs,
`extract_outline` returns exactly `{title: "Untitled Document", outline: []}`. -/
theorem C5_empty_and_failure_default :
    extract_outline none = { title := "Untitled Document", outline := [] } ∧
    ∀ doc : PDFDoc, extract_text_elements doc = [] →
      extract_outline (some doc) = { title := "Untitled Document", outline := [] } := by
  refine ⟨rfl, fun doc h => ?_⟩
  simp [extract_outline, extract_outline_opened, h]

/-- Witness for C5: a concrete document whose only span is whitespace. -/
theorem C5_empty_and_failure_default_witness :
    extract_outline (some exEmptyDoc) = { title := "Untitled Document", outline := [] } :=
  C5_empty_and_failure_default.2 exEmptyDoc (by decide)

/-- **C8.** (refuting evaluation) On a successfully opened document with zero
extracted text runs, `extract_outline` returns via the early branch at lines
36-37 without ever executing `doc.close()` (line 43): the close flag of the
run is `false`. -/
theorem C8_close_skipped_on_empty_doc :
    (extract_outline_opened exEmptyDoc).1 = { title := "Untitled Document", outline := [] } ∧
    (extract_outline_opened exEmptyDoc).2 = false := by decide

/-- **C3.** (refuting evaluation) Two same-style page-1 heading runs listed in
extraction order low-on-page (`y = 500`) first, high-on-page (`y = 100`)
second: the final outline keeps that order, so within a page the entries are
*not* in non-decreasing y-position — classification drops `y_pos` (lines
254-258) and the sort key of line 269 always uses the default
`get("y_pos", 0) = 0`. -/
theorem C3_within_page_order_not_by_y :
    extract_headings exC3Elems =
      [{ level := "H1", text := exLowerRun.text, page := 1 },
       { level := "H1", text := exUpperRun.text, page := 1 }] ∧
    exLowerRun.y_pos = 500 ∧ exUpperRun.y_pos = 100 ∧
    ¬(exLowerRun.y_pos ≤ exUpperRun.y_pos) := by decide

/-- **C9.** Two heading-candidate runs with equal rounded font size and equal
all-caps status are both bold — `"Alpha Section"` because its font name
contains `"bold"` (Python value `True`, encoded `1`) and `"Beta Section"`
only via the font-flag bit (Python value `16`) — yet their style signatures
compare unequal, so they form two distinct style groups that occupy two of
the three level slots and receive different heading levels. -/
theorem C9_bold_value_splits_styles :
    ({ exC9A with heading_score := 8 } ∈
        identify_heading_candidates (extract_text_elements exC9Doc)
          (analyze_body_text (extract_text_elements exC9Doc)) ∧
      { exC9B with heading_score := 8 } ∈
        identify_heading_candidates (extract_text_elements exC9Doc)
          (analyze_body_text (extract_text_elements exC9Doc))) ∧
    exC9A.font_size = exC9B.font_size ∧
    exC9A.is_all_caps = exC9B.is_all_caps ∧
    (containsL (exC9A.font_name.data.map Char.toLower) "bold".data = true ∧
      exC9A.is_bold = 1) ∧
    (containsL (exC9B.font_name.data.map Char.toLower) "bold".data = false ∧
      exC9B.is_bold = 16) ∧
    exC9A.is_bold ≠ 0 ∧ exC9B.is_bold ≠ 0 ∧
    styleKey { exC9A with heading_score := 8 } ≠ styleKey { exC9B with heading_score := 8 } ∧
    classify_heading_levels
        (identify_heading_candidates (extract_text_elements exC9Doc)
          (analyze_body_text (extract_text_elements exC9Doc))) =
      [{ level := "H1", text := "Alpha Section", page := 1 },
       { level := "H2", text := "Beta Section", page := 1 }] := by decide

theorem levelMapping_find_eq (ranked : List (ℚ × Nat × Bool)) (s : ℚ × Nat × Bool) :
    (((ranked.take 3).enum.map (fun p => (p.2, "H" ++ toString (p.1 + 1)))).find?
        (fun p => p.1 = s)).map (fun p => p.2) = levelForRankSpec ranked s := by
  unfold levelForRankSpec
  match ranked with
  | [] => simp
  | [a] =>
    by_cases h1 : a = s <;>
      simp [List.take, List.enum_cons, List.enumFrom, List.find?, h1] <;> decide
  | [a, b] =>
    by_cases h1 : a = s <;> by_cases h2 : b = s <;>
      simp [List.take, List.enum_cons, List.enumFrom, List.find?, h1, h2] <;> decide
  | a :: b :: c :: rest =>
    by_cases h1 : a = s <;> by_cases h2 : b = s <;> by_cases h3 : c = s <;>
      simp [List.take, List.enum_cons, List.enumFrom, List.find?, h1, h2, h3] <;> decide

theorem levelForRankSpec_cases (r : List (ℚ × Nat × Bool)) (s : ℚ × Nat × Bool)
    (lvl : String) (hl : levelForRankSpec r s = some lvl) :
    lvl = "H1" ∨ lvl = "H2" ∨ lvl = "H3" := by
  unfold levelForRankSpec at hl
  split at hl <;> simp_all

/-- **C2.** For every non-empty candidate list: candidates are grouped by
exact style signature; the distinct signatures (`rankedStyles`) are sorted
descending by font size only, without duplicates and containing exactly the
signatures present; the classifier emits, in candidate order, an entry for
each candidate whose signature ranks first, second or third (receiving `H1`,
`H2`, `H3` respectively) and drops every candidate ranked beyond the third;
hence every level is one of `H1`/`H2`/`H3` and at most 3 signatures are
mapped. -/
theorem C2_level_classification (candidates : List Element) (h : candidates ≠ []) :
    List.Sorted styleR (rankedStyles candidates) ∧
    (rankedStyles candidates).Nodup ∧
    (∀ s, s ∈ rankedStyles candidates ↔ s ∈ candidates.map styleKey) ∧
    classify_heading_levels candidates =
      candidates.filterMap (fun c =>
        (levelForRankSpec (rankedStyles candidates) (styleKey c)).map
          (fun lvl => { level := lvl, text := c.text, page := c.page })) ∧
    (∀ hd ∈ classify_heading_levels candidates,
      hd.level = "H1" ∨ hd.level = "H2" ∨ hd.level = "H3") ∧
    ((rankedStyles candidates).take 3).length ≤ 3 := by
  have hmain : classify_heading_levels candidates =
      candidates.filterMap (fun c =>
        (levelForRankSpec (rankedStyles candidates) (styleKey c)).map
          (fun lvl => { level := lvl, text := c.text, page := c.page })) := by
    simp only [classify_heading_levels, rankedStyles]
    rw [if_neg (by simpa [List.isEmpty_iff] using h)]
    refine List.filterMap_congr (fun c _ => ?_)
    rw [← levelMapping_find_eq (List.insertionSort styleR (firstOccs (candidates.map styleKey)))
        (styleKey c), Option.map_map]
    rfl
  refine ⟨List.sorted_insertionSort styleR _,
    (List.perm_insertionSort styleR _).nodup_iff.mpr (firstOccs_nodup _),
    fun s => (List.perm_insertionSort styleR _).mem_iff.trans (firstOccs_mem _ s),
    hmain, fun hd hmem => ?_, List.length_take_le 3 _⟩
  rw [hmain] at hmem
  obtain ⟨c, _, hsome⟩ := List.mem_filterMap.mp hmem
  rw [Option.map_eq_some'] at hsome
  obtain ⟨lvl, hspec, hrec⟩ := hsome
  have := levelForRankSpec_cases _ _ _ hspec
  rw [← hrec]
  simpa using this

/-- Witness for C2 at the concrete candidate list of `exDocElems`. -/
theorem C2_level_classification_witness :
    List.Sorted styleR (rankedStyles exCands) ∧
    (rankedStyles exCands).Nodup ∧
    (∀ s, s ∈ rankedStyles exCands ↔ s ∈ exCands.map styleKey) ∧
    classify_heading_levels exCands =
      exCands.filterMap (fun c =>
        (levelForRankSpec (rankedStyles exCands) (styleKey c)).map
          (fun lvl => { level := lvl, text := c.text, page := c.page })) ∧
    (∀ hd ∈ classify_heading_levels exCands,
      hd.level = "H1" ∨ hd.level = "H2" ∨ hd.level = "H3") ∧
    ((rankedStyles exCands).take 3).length ≤ 3 :=
  C2_level_classification exCands (by decide)

theorem keepFirstBy_cons (k : Heading → String) (h : Heading) (t : List Heading) :
    keepFirstBy k (h :: t) = h :: keepFirstBy k (t.filter (fun h2 => k h2 ≠ k h)) := by
  rw [keepFirstBy]

theorem keepFirstBy_sub (k : Heading → String) :
    ∀ (n : Nat) (l : List Heading), l.length ≤ n → ∀ x ∈ keepFirstBy k l, x ∈ l
  | _, [], _, x, hx => by simp [keepFirstBy] at hx
  | 0, h :: t, hlen, x, hx => by simp at hlen
  | n + 1, h :: t, hlen, x, hx => by
    rw [keepFirstBy_cons] at hx
    rcases List.mem_cons.mp hx with rfl | hx'
    · exact List.mem_cons_self _ _
    · have hrec := keepFirstBy_sub k n (t.filter (fun h2 => k h2 ≠ k h))
        (le_trans (List.length_filter_le _ t) (Nat.le_of_succ_le_succ hlen)) x hx'
      exact List.mem_cons_of_mem _ (List.mem_filter.mp hrec).1

theorem keepFirstBy_pairwise (k : Heading → String) :
    ∀ (n : Nat) (l : List Heading), l.length ≤ n →
      List.Pairwise (fun a b => k a ≠ k b) (keepFirstBy k l)
  | _, [], _ => by simp [keepFirstBy]
  | 0, h :: t, hlen => by simp at hlen
  | n + 1, h :: t, hlen => by
    rw [keepFirstBy_cons]
    have hlen' : (t.filter (fun h2 => k h2 ≠ k h)).length ≤ n :=
      le_trans (List.length_filter_le _ t) (Nat.le_of_succ_le_succ hlen)
    refine List.pairwise_cons.mpr ⟨fun b hb => ?_, keepFirstBy_pairwise k n _ hlen'⟩
    have hbf := keepFirstBy_sub k n _ hlen' b hb
    have hne := (List.mem_filter.mp hbf).2
    simp only [ne_eq, decide_not, Bool.not_eq_true', decide_eq_false_iff_not] at hne
    exact fun hkb => hne hkb.symm

theorem create_final_fold :
    ∀ (l : List Heading) (acc : List Heading) (seen : List String),
      (l.foldl
        (fun (st : List Heading × List String) heading =>
          if normText heading ∉ st.2 ∧ 2 < (normText heading).length then
            (st.1 ++ [heading], st.2 ++ [normText heading])
          else st)
        (acc, seen)).1 =
      acc ++ keepFirstBy normText
        (l.filter (fun h => decide (normText h ∉ seen ∧ 2 < (normText h).length)))
  | [], acc, seen => by simp [keepFirstBy]
  | hd :: tl, acc, seen => by
    simp only [List.foldl_cons]
    by_cases hc : normText hd ∉ seen ∧ 2 < (normText hd).length
    · rw [if_pos hc]
      rw [create_final_fold tl (acc ++ [hd]) (seen ++ [normText hd]),
        List.filter_cons_of_pos (by simpa using hc), keepFirstBy_cons, List.append_assoc,
        List.singleton_append, List.filter_filter]
      have hfeq : ∀ x : Heading,
          (decide (normText x ∉ seen ++ [normText hd] ∧ 2 < (normText x).length)) =
            (decide (normText x ≠ normText hd) &&
              decide (normText x ∉ seen ∧ 2 < (normText x).length)) := by
        intro x
        by_cases b1 : normText x ∈ seen <;> by_cases b2 : normText x = normText hd <;>
          by_cases b3 : 2 < (normText x).length <;> simp [b1, b2, b3]
      rw [List.filter_congr (fun x _ => hfeq x)]
    · rw [if_neg hc]
      rw [create_final_fold tl acc seen, List.filter_cons_of_neg (by simpa using hc)]

theorem create_final_outline_eq (hs : List Heading) :
    create_final_outline hs =
      keepFirstBy normText
        ((List.insertionSort finalR hs).filter (fun h => decide (2 < (normText h).length))) := by
  simp only [create_final_outline]
  by_cases hempty : hs.isEmpty
  · rw [if_pos hempty]
    have : hs = [] := by simpa [List.isEmpty_iff] using hempty
    subst this
    simp [keepFirstBy]
  · rw [if_neg hempty, create_final_fold (List.insertionSort finalR hs) [] [],
      List.nil_append]
    congr 1
    refine List.filter_congr (fun x _ => ?_)
    simp

/-- **C4.** For every list of level-tagged headings, the finalizer equals:
stable-sort, drop entries whose trimmed lowercased text has length ≤ 2, keep
only the first occurrence of each such normalized text; consequently no two
entries of the final outline share the same case-insensitive trimmed text,
globally across the whole document. -/
theorem C4_final_dedup (hs : List Heading) :
    create_final_outline hs =
      keepFirstBy normText
        ((List.insertionSort finalR hs).filter (fun h => decide (2 < (normText h).length))) ∧
    List.Pairwise (fun a b => normText a ≠ normText b) (create_final_outline hs) := by
  refine ⟨create_final_outline_eq hs, ?_⟩
  rw [create_final_outline_eq hs]
  exact keepFirstBy_pairwise normText _ _ (le_refl _)

/-- **C6.** For every element list with at least one page-1 run: the title
extractor's sort of the page-1 runs is by font size descending with topmost
first among equal sizes (`titleR`); among the first 10 runs of that order the
returned title is the text of the first run satisfying the qualification
(font size ≥ 12, 1 ≤ wordCount ≤ 15, no digits, no `"Page"`/`"Chapter"`
start, trimmed length > 2); and when none of those 10 qualifies, the returned
title is the text of the head of the sorted list, a run of maximal font size
among all page-1 runs. -/
theorem C6_title_selection (elements : List Element)
    (h : elements.filter (fun e => e.page = 1) ≠ [])
    (htrim : ∀ e ∈ elements, pyStrip e.text = e.text) :
    List.Sorted titleR (List.insertionSort titleR (elements.filter (fun e => e.page = 1))) ∧
    (∀ c, ((List.insertionSort titleR (elements.filter (fun e => e.page = 1))).take 10).find?
          is_good_title = some c →
        extract_title elements = c.text ∧
        12 ≤ c.font_size ∧ 1 ≤ c.word_count ∧ c.word_count ≤ 15 ∧
        c.has_numbers = false ∧
        startsWithL c.text.data "Page".data = false ∧
        startsWithL c.text.data "Chapter".data = false ∧
        2 < (pyStrip c.text).length) ∧
    (((List.insertionSort titleR (elements.filter (fun e => e.page = 1))).take 10).find?
          is_good_title = none →
      ∃ e0, (List.insertionSort titleR (elements.filter (fun e => e.page = 1))).head? =
          some e0 ∧
        extract_title elements = e0.text ∧
        ∀ e ∈ elements.filter (fun e => e.page = 1), e.font_size ≤ e0.font_size) := by
  have helems : ¬elements.isEmpty := by
    intro hemp
    rw [List.isEmpty_iff] at hemp
    subst hemp
    simp at h
  have hfpne : ¬(elements.filter (fun e => e.page = 1)).isEmpty := by
    simpa [List.isEmpty_iff] using h
  refine ⟨List.sorted_insertionSort titleR _, fun c hc => ?_, fun hnone => ?_⟩
  · obtain ⟨t, ht⟩ := find?_some_filter_cons is_good_title _ c hc
    have hmemc : c ∈ elements := by
      have h1 := List.mem_of_find?_eq_some hc
      have h2 := List.take_subset 10 _ h1
      have h3 := (List.perm_insertionSort titleR _).mem_iff.mp h2
      exact (List.mem_filter.mp h3).1
    have hgood := List.find?_some hc
    simp only [is_good_title, Bool.and_eq_true, decide_eq_true_eq, Bool.not_eq_true',
      decide_eq_false_iff_not] at hgood
    obtain ⟨⟨⟨⟨⟨⟨hsz, hw15⟩, hw1⟩, hnum⟩, hpage⟩, hchap⟩, hlen⟩ := hgood
    refine ⟨?_, hsz, hw1, hw15, ?_, ?_, ?_, ?_⟩
    · simp only [extract_title]
      rw [if_neg helems, if_neg hfpne, ht]
    · simpa using hnum
    · simpa using hpage
    · simpa using hchap
    · rw [htrim c hmemc]
      exact hlen
  · have hfilter : ((List.insertionSort titleR
        (elements.filter (fun e => e.page = 1))).take 10).filter is_good_title = [] :=
      filter_eq_nil_of_find?_none _ _ hnone
    cases hs : List.insertionSort titleR (elements.filter (fun e => e.page = 1)) with
    | nil =>
      exfalso
      have := List.length_insertionSort titleR (elements.filter (fun e => e.page = 1))
      rw [hs] at this
      exact h (List.length_eq_zero.mp this.symm)
    | cons e0 rest =>
      refine ⟨e0, rfl, ?_, fun e he => ?_⟩
      · simp only [extract_title]
        rw [if_neg helems, if_neg hfpne, hfilter, hs]
      · have hsort := List.sorted_insertionSort titleR (elements.filter (fun e => e.page = 1))
        rw [hs] at hsort
        have hmem : e ∈ e0 :: rest := by
          rw [← hs]
          exact (List.perm_insertionSort titleR _).mem_iff.mpr he
        rcases List.mem_cons.mp hmem with rfl | hmem'
        · exact le_refl _
        · rcases List.rel_of_sorted_cons hsort e hmem' with hlt | ⟨heq, _⟩
          · exact le_of_lt hlt
          · exact le_of_eq heq.symm

/-- Witness for C6: on the concrete `exDocElems`, the first qualifying run of
the sorted page-1 list is the size-30 `"Grand Title Heading"` run, and the
extractor returns its text. -/
theorem C6_title_selection_witness :
    extract_title exDocElems = "Grand Title Heading" := by
  have hfind : ((List.insertionSort titleR
      (exDocElems.filter (fun e => e.page = 1))).take 10).find? is_good_title =
      some exTitleRun := by decide
  exact ((C6_title_selection exDocElems (by decide) (by decide)).2.1 exTitleRun hfind).1

theorem mem_create_final_outline (hs : List Heading) :
    ∀ x ∈ create_final_outline hs, x ∈ hs := by
  intro x hx
  rw [create_final_outline_eq] at hx
  have h1 := keepFirstBy_sub normText _ _ (le_refl _) x hx
  have h2 := (List.mem_filter.mp h1).1
  exact (List.perm_insertionSort finalR hs).mem_iff.mp h2

theorem mem_classify_heading_levels (cands : List Element) :
    ∀ hd ∈ classify_heading_levels cands, ∃ c ∈ cands, hd.text = c.text ∧ hd.page = c.page := by
  intro hd hmem
  simp only [classify_heading_levels] at hmem
  by_cases hempty : cands.isEmpty
  · rw [if_pos hempty] at hmem
    cases hmem
  · rw [if_neg hempty] at hmem
    obtain ⟨c, hc, hsome⟩ := List.mem_filterMap.mp hmem
    rw [Option.map_eq_some'] at hsome
    obtain ⟨p, _, hrec⟩ := hsome
    exact ⟨c, hc, by rw [← hrec], by rw [← hrec]⟩

theorem mem_identify_heading_candidates (elements : List Element) (bs : BodyStats) :
    ∀ c ∈ identify_heading_candidates elements bs,
      ∃ e ∈ elements, c.text = e.text ∧ c.page = e.page ∧ c.font_size = e.font_size ∧
        bs.size < e.font_size := by
  intro c hc
  rw [identify_eq_filter_map] at hc
  simp only [List.mem_map, List.mem_filter, decide_eq_true_eq] at hc
  obtain ⟨e0, ⟨he0, _, _, hgate⟩, rfl⟩ := hc
  exact ⟨e0, he0, rfl, rfl, rfl, hgate⟩

/-- **C7.** For every non-empty element list, the body baseline size is a
font size of maximal frequency among all runs, and every entry of the final
outline originates from a run whose font size strictly exceeds that baseline
size. -/
theorem C7_gate_invariant (elements : List Element) (h : elements ≠ []) :
    ((analyze_body_text elements).size ∈ elements.map (fun e => e.font_size) ∧
      ∀ s ∈ elements.map (fun e => e.font_size),
        (elements.map (fun e => e.font_size)).count s ≤
          (elements.map (fun e => e.font_size)).count ((analyze_body_text elements).size)) ∧
    ∀ hd ∈ extract_headings elements, ∃ e ∈ elements,
      hd.text = e.text ∧ hd.page = e.page ∧ (analyze_body_text elements).size < e.font_size := by
  have hsizes : elements.map (fun e => e.font_size) ≠ [] := by
    simpa using h
  have hbody : (analyze_body_text elements).size =
      mostCommonSize (elements.map (fun e => e.font_size)) := rfl
  constructor
  · rw [hbody]
    exact mostCommonSize_spec _ hsizes
  · intro hd hmem
    have hne : ¬elements.isEmpty := by simpa [List.isEmpty_iff] using h
    simp only [extract_headings] at hmem
    rw [if_neg hne] at hmem
    have h1 := mem_create_final_outline _ hd hmem
    obtain ⟨c, hc, htext, hpage⟩ := mem_classify_heading_levels _ hd h1
    obtain ⟨e, he, htext2, hpage2, _, hgate⟩ :=
      mem_identify_heading_candidates elements (analyze_body_text elements) c hc
    exact ⟨e, he, htext.trans htext2, hpage.trans hpage2, hgate⟩

/-- Witness for C7 at the concrete `exDocElems`. -/
theorem C7_gate_invariant_witness :
    ((analyze_body_text exDocElems).size ∈ exDocElems.map (fun e => e.font_size) ∧
      ∀ s ∈ exDocElems.map (fun e => e.font_size),
        (exDocElems.map (fun e => e.font_size)).count s ≤
          (exDocElems.map (fun e => e.font_size)).count ((analyze_body_text exDocElems).size)) ∧
    ∀ hd ∈ extract_headings exDocElems, ∃ e ∈ exDocElems,
      hd.text = e.text ∧ hd.page = e.page ∧
        (analyze_body_text exDocElems).size < e.font_size :=
  C7_gate_invariant exDocElems (by decide)

theorem mem_extract_text_elements (doc : PDFDoc) :
    ∀ e ∈ extract_text_elements doc, pyStrip e.text = e.text ∧ e.text ≠ "" := by
  intro e he
  simp only [extract_text_elements, List.mem_flatMap] at he
  obtain ⟨p, _, he2⟩ := he
  obtain ⟨block, _, he3⟩ := he2
  by_cases hb : block.btype = 0
  · rw [if_pos hb] at he3
    obtain ⟨line, _, he4⟩ := List.mem_flatMap.mp he3
    obtain ⟨span, _, he5⟩ := List.mem_filterMap.mp he4
    simp only [elementOfSpan] at he5
    by_cases ht : pyStrip span.text = ""
    · rw [if_pos ht] at he5
      cases he5
    · rw [if_neg ht] at he5
      injection he5 with he5
      constructor
      · rw [← he5]
        exact pyStrip_idem span.text
      · rw [← he5]
        exact ht
  · rw [if_neg hb] at he3
    cases he3

theorem extract_title_cases (elements : List Element) :
    extract_title elements = "Untitled Document" ∨
      ∃ e ∈ elements, e.page = 1 ∧ extract_title elements = e.text := by
  by_cases h1 : elements.isEmpty
  · left
    simp [extract_title, h1]
  · by_cases h2 : (elements.filter (fun e => e.page = 1)).isEmpty
    · left
      simp [extract_title, h1, h2]
    · right
      cases hc : ((List.insertionSort titleR
          (elements.filter (fun e => e.page = 1))).take 10).filter is_good_title with
      | cons c t =>
        have h3 : c ∈ ((List.insertionSort titleR
            (elements.filter (fun e => e.page = 1))).take 10).filter is_good_title := by
          rw [hc]
          exact List.mem_cons_self _ _
        have h4 := (List.mem_filter.mp h3).1
        have h5 := List.take_subset 10 _ h4
        have hcmem := (List.perm_insertionSort titleR _).mem_iff.mp h5
        refine ⟨c, (List.mem_filter.mp hcmem).1,
          by simpa using (List.mem_filter.mp hcmem).2, ?_⟩
        simp only [extract_title]
        rw [if_neg h1, if_neg h2, hc]
      | nil =>
        cases hs : List.insertionSort titleR (elements.filter (fun e => e.page = 1)) with
        | nil =>
          exfalso
          have hlen := List.length_insertionSort titleR
            (elements.filter (fun e => e.page = 1))
          rw [hs] at hlen
          exact h2 (by simp [List.isEmpty_iff, List.length_eq_zero.mp hlen.symm])
        | cons e0 rest =>
          have he0 : e0 ∈ elements.filter (fun e => e.page = 1) := by
            refine (List.perm_insertionSort titleR _).mem_iff.mp ?_
            rw [hs]
            exact List.mem_cons_self _ _
          refine ⟨e0, (List.mem_filter.mp he0).1,
            by simpa using (List.mem_filter.mp he0).2, ?_⟩
          simp only [extract_title]
          rw [if_neg h1, if_neg h2, hc, hs]

/-- **C10.** For every parse result, every extracted run's text is non-empty
and trim-stable (empty-after-strip spans are discarded during extraction),
and the returned title is either the literal `"Untitled Document"` or the
text of some page-1 run — hence a non-empty string. -/
theorem C10_title_nonempty (p : Option PDFDoc) :
    (∀ e ∈ elementsOf p, pyStrip e.text = e.text ∧ e.text ≠ "") ∧
    ((extract_outline p).title = "Untitled Document" ∨
      ∃ e ∈ elementsOf p, e.page = 1 ∧ (extract_outline p).title = e.text) ∧
    (extract_outline p).title ≠ "" := by
  match p with
  | none =>
    refine ⟨by simp [elementsOf], Or.inl rfl, by decide⟩
  | some doc =>
    refine ⟨mem_extract_text_elements doc, ?_⟩
    by_cases hemp : (extract_text_elements doc).isEmpty
    · have htl : (extract_outline (some doc)).title = "Untitled Document" := by
        simp [extract_outline, extract_outline_opened, hemp]
      refine ⟨Or.inl htl, ?_⟩
      rw [htl]
      decide
    · have htl : (extract_outline (some doc)).title =
          extract_title (extract_text_elements doc) := by
        simp [extract_outline, extract_outline_opened, hemp]
      rcases extract_title_cases (extract_text_elements doc) with hcase | ⟨e, he, hp, hcase⟩
      · refine ⟨Or.inl (htl.trans hcase), ?_⟩
        rw [htl, hcase]
        decide
      · refine ⟨Or.inr ⟨e, he, hp, htl.trans hcase⟩, ?_⟩
        rw [htl, hcase]
        exact (mem_extract_text_elements doc e he).2
